import Mathlib

/-!
Shallow embedding of the `palapuzzle` Go package (`palapuzzle.go`): a scanner
for Palapeli `.puzzle` files (gzip-compressed tar archives).  File-system,
gzip and tar behaviour is modelled by an explicit input record describing the
outcome of each external operation; the package's own logic (entry
classification, the piece tally, the `pala.desktop` parser, warning
generation and the `Error` rendering) is translated function by function.
-/

namespace palapuzzle

set_option maxRecDepth 100000

/-- Decimal digit character with value `d` (meaningful for `d < 10`),
as produced by Go integer formatting. -/
def digitChar (d : Nat) : Char := Char.ofNat (48 + d)

/-- Digits of `n` in base 10, most significant first; structural recursion on
a fuel argument so that the definition evaluates inside the kernel. -/
def natDigitsAux : Nat → Nat → List Char
  | 0, _ => []
  | fuel + 1, n =>
    if n < 10 then [digitChar n]
    else natDigitsAux fuel (n / 10) ++ [digitChar (n % 10)]

/-- Decimal rendering of a natural number, as Go `fmt` verb `%d` renders a
nonnegative integer. -/
def natRepr (n : Nat) : String := ⟨natDigitsAux (n + 1) n⟩

/-- Model of a Go `error` value: either an opaque message, or an
`os.PathError` wrapper (operation, path, wrapped error). -/
inductive GoError where
  | simple (msg : String)
  | pathError (op : String) (path : String) (inner : GoError)
deriving DecidableEq, Repr

/-- Rendering of a modelled Go error: `os.PathError.Error()` is
`Op + " " + Path + ": " + Err.Error()`. -/
def GoError.message : GoError → String
  | .simple m => m
  | .pathError op path inner => op ++ " " ++ path ++ ": " ++ inner.message

/-- The package's `Error` struct: action attempted, file path, wrapped cause
(`BaseError` is a Go interface value, hence possibly nil: `Option`). -/
structure Error where
  Action : String
  FilePath : String
  BaseError : Option GoError
deriving DecidableEq, Repr

/-- The method `func (e *Error) Error() string` of `palapuzzle.go`: unwraps
one `os.PathError` level of the base error when present, then renders
`cannot <Action> "<FilePath>"[: <cause>]`. -/
def Error.Error (e : Error) : String :=
  let baseErrStr :=
    match e.BaseError with
    | none => ""
    | some be =>
      let be2 :=
        match be with
        | .pathError _ _ inner => inner
        | other => other
      ": " ++ be2.message
  "cannot " ++ e.Action ++ " \"" ++ e.FilePath ++ "\"" ++ baseErrStr

/-- The `PuzzleInfo` struct, with Go zero values as defaults. -/
structure PuzzleInfo where
  Dir : String := ""
  Filename : String := ""
  Title : String := ""
  Author : String := ""
  Comment : String := ""
  Warnings : List String := []
  NPieceFiles : Int := 0
  NPiecesDecl : Int := 0
  ImageFileSize : Int := 0
  PuzzleFileSize : Int := 0
deriving DecidableEq, Repr

/-- Matching against `rePieceName = ^(\d+)\.png$`: succeeds iff the name is a
nonempty run of ASCII digits followed by `.png`, returning the captured
digit string (`m[1]`). -/
def rePieceName (name : String) : Option String :=
  let cs := name.data
  let stem := List.take (cs.length - 4) cs
  if 4 < cs.length ∧ List.drop (cs.length - 4) cs = ['.', 'p', 'n', 'g']
      ∧ stem.all Char.isDigit
  then some ⟨stem⟩ else none

/-- Matching against `reKeyValue = ^([^[=]+)=(.*)$`: succeeds iff the line
contains `=`, the text before the first `=` is nonempty and free of `[`;
returns (key, raw value after the first `=`). -/
def reKeyValue (line : String) : Option (String × String) :=
  match line.data.findIdx? (fun c => c = '=') with
  | none => none
  | some p =>
    if p = 0 ∨ (List.take p line.data).contains '[' then none
    else some (⟨List.take p line.data⟩, ⟨List.drop (p + 1) line.data⟩)

/-- Value of a digit string, most significant first. -/
def digitsVal (cs : List Char) : Nat := cs.foldl (fun a c => a * 10 + (c.toNat - 48)) 0

/-- Go's maximum `int` value on a 64-bit platform (`strconv.Atoi` range). -/
def goMaxInt : Nat := 9223372036854775807

/-- `strconv.Atoi` on the captured digit string of `rePieceName` (all-digit,
unsigned): fails exactly when the value overflows a 64-bit Go `int`. -/
def atoiDigits (s : String) : Option Nat :=
  if s.data ≠ [] ∧ s.data.all Char.isDigit ∧ digitsVal s.data ≤ goMaxInt
  then some (digitsVal s.data) else none

/-- `strconv.Atoi` on a general string: optional sign, nonempty digit run,
64-bit range check; any other shape fails. -/
def atoi (s : String) : Option Int :=
  let cs := s.data
  let neg : Bool := cs.head? = some '-'
  let ds := if cs.head? = some '-' ∨ cs.head? = some '+' then cs.tail else cs
  if ds = [] ∨ ¬ ds.all Char.isDigit then none
  else
    let v : Int := if neg then -(digitsVal ds : Int) else (digitsVal ds : Int)
    if -((goMaxInt : Int) + 1) ≤ v ∧ v ≤ (goMaxInt : Int) then some v else none

/-- Warning text `missing "<i>.png"` from the reconciliation loop. -/
def missingStr (i : Nat) : String := "missing \"" ++ natRepr i ++ ".png\""

/-- Warning text `<c> members named "<i>.png"` from the reconciliation loop. -/
def dupStr (c i : Nat) : String :=
  natRepr c ++ " members named \"" ++ natRepr i ++ ".png\""

/-- Warning text `bad PieceCount "<v>"` from the descriptor parser. -/
def badPieceCountStr (v : String) : String := "bad PieceCount \"" ++ v ++ "\""

/-- Whitespace per Go `unicode.IsSpace` for the Latin-1 range, as used by
`strings.TrimSpace`. -/
def isSpaceChar (c : Char) : Bool :=
  c.toNat = 32 ∨ (9 ≤ c.toNat ∧ c.toNat ≤ 13) ∨ c.toNat = 133 ∨ c.toNat = 160

/-- Model of `strings.TrimSpace`: drop leading and trailing whitespace. -/
def trimSpace (s : String) : String :=
  ⟨((s.data.dropWhile isSpaceChar).reverse.dropWhile isSpaceChar).reverse⟩

/-- One line of the `pala.desktop` scanner loop body: match `reKeyValue`,
trim the value, dispatch on the key exactly as the Go `switch` does. -/
def processDesktopLine (out : PuzzleInfo) (line : String) : PuzzleInfo :=
  match reKeyValue line with
  | none => out
  | some kv =>
    let key := kv.1
    let value := trimSpace kv.2
    if key = "Name" then { out with Title := value }
    else if key = "X-KDE-PluginInfo-Author" then { out with Author := value }
    else if key = "Comment" then { out with Comment := value }
    else if key = "PieceCount" ∨ key = "020_PieceCount" then
      match atoi value with
      | some n => { out with NPiecesDecl := n }
      | none =>
        { out with NPiecesDecl := -1,
                   Warnings := out.Warnings ++ [badPieceCountStr value] }
    else out

/-- `scanPalaDesktopFile`: the entry's content is modelled as the list of
lines the `bufio.Scanner` delivers plus the scanner's final error state
(`s.Err()`); every delivered line is processed, then a stream error yields
the package error with placeholder path `?` (fixed up by the caller). -/
def scanPalaDesktopFile (lines : List String) (readErr : Option GoError)
    (out : PuzzleInfo) : PuzzleInfo × Option Error :=
  let out2 := lines.foldl processDesktopLine out
  match readErr with
  | some e =>
    (out2, some ⟨"cannot read \"pala.desktop\" member in ", "?", some e⟩)
  | none => (out2, none)

/-- One tar entry as delivered by `tar.Reader`: header name and declared
size, plus (for the `pala.desktop` entry) the content lines readable from it
and the content stream's error state. -/
structure TarEntry where
  name : String
  size : Int := 0
  lines : List String := []
  readErr : Option GoError := none
deriving DecidableEq, Repr

/-- The externally observable behaviour of the file system, gzip and tar
layers for one scan: the outcome of `os.Open`, `Stat`, `gzip.NewReader`, the
entries `tar.Reader.Next` delivers, and the error (if any) it then reports
in place of `io.EOF`. -/
structure ScanInput where
  path : String := "p"
  openErr : Option GoError := none
  fileSize : Int := 0
  statErr : Option GoError := none
  gzipErr : Option GoError := none
  tarEntries : List TarEntry := []
  tarReadErr : Option GoError := none
deriving DecidableEq, Repr

/-- Mutable state of the entry loop in `ScanPuzzle`: the record under
construction, `maxPieceNum`, and the `piecesFound` byte slice (each element
a byte value, i.e. `< 256`). -/
structure LoopState where
  ret : PuzzleInfo
  maxPieceNum : Int
  piecesFound : List Nat
deriving DecidableEq, Repr

/-- The slice-growing step: `if i >= len(piecesFound)` replace it by a fresh
slice of length `2*i` with the prior counts copied (the fresh tail is
zero-filled, as `make` zero-fills). -/
def growBuffer (pf : List Nat) (i : Nat) : List Nat :=
  if pf.length ≤ i then pf ++ List.replicate (2 * i - pf.length) 0 else pf

/-- The body of the entry loop of `ScanPuzzle` for one tar header: piece
names are tallied (byte increment, i.e. mod 256), `image.jpg` records its
size, `pala.desktop` is delegated to the descriptor scanner, anything else
is ignored; the two fatal cases return the loop's error. -/
def stepEntry (path : String) (st : LoopState) (h : TarEntry) :
    Except Error LoopState :=
  match rePieceName h.name with
  | some digits =>
    match atoiDigits digits with
    | none =>
      .error ⟨"bad member name \"" ++ h.name ++ "\"", path,
        some (.simple ("strconv.Atoi: parsing \"" ++ digits
          ++ "\": value out of range"))⟩
    | some i =>
      let pf := growBuffer st.piecesFound i
      let pf2 := pf.set i ((pf.getD i 0 + 1) % 256)
      let mx := if (i : Int) > st.maxPieceNum then (i : Int) else st.maxPieceNum
      .ok { st with piecesFound := pf2, maxPieceNum := mx }
  | none =>
    if h.name = "image.jpg" then
      .ok { st with ret := { st.ret with ImageFileSize := h.size } }
    else if h.name = "pala.desktop" then
      match scanPalaDesktopFile h.lines h.readErr st.ret with
      | (_, some e) => .error { e with FilePath := path }
      | (out2, none) => .ok { st with ret := out2 }
    else .ok st

/-- The entry loop of `ScanPuzzle` over the entries the tar reader delivers,
stopping at the first fatal error. -/
def scanEntries (path : String) : LoopState → List TarEntry → Except Error LoopState
  | st, [] => .ok st
  | st, e :: rest =>
    match stepEntry path st e with
    | .error err => .error err
    | .ok st2 => scanEntries path st2 rest

/-- Warnings contributed by tally position `i` in the reconciliation loop:
`missing` on a zero count, `<n> members named` on a count above one. -/
def pieceWarnAt (pf : List Nat) (i : Nat) : List String :=
  if pf.getD i 0 = 0 then [missingStr i]
  else if 1 < pf.getD i 0 then [dupStr (pf.getD i 0) i]
  else []

/-- The reconciliation loop `for i := 0; i < maxPieceNum; i++` appending
piece warnings in ascending index order. -/
def tallyWarnings (pf : List Nat) (maxPieceNum : Int) : List String :=
  (List.range maxPieceNum.toNat).foldl (fun ws i => ws ++ pieceWarnAt pf i) []

/-- Position just after the last `/`, if any (`filepath.Split` boundary). -/
def lastSlash : List Char → Option Nat
  | [] => none
  | c :: rest =>
    match lastSlash rest with
    | some p => some (p + 1)
    | none => if c = '/' then some 0 else none

/-- `filepath.Split`: directory part up to and including the final slash,
file part after it. -/
def filepathSplit (path : String) : String × String :=
  match lastSlash path.data with
  | none => ("", path)
  | some p => (⟨List.take (p + 1) path.data⟩, ⟨List.drop (p + 1) path.data⟩)

/-- `ScanPuzzle`: Go's pair `(*PuzzleInfo, error)` is modelled as a pair of
options; every `return nil, err` site becomes `(none, some err)` and the
final success `return ret, nil` becomes `(some ret, none)`. -/
def ScanPuzzle (inp : ScanInput) : Option PuzzleInfo × Option Error :=
  match inp.openErr with
  | some e => (none, some ⟨"cannot open", inp.path, some e⟩)
  | none =>
    match inp.statErr with
    | some e => (none, some ⟨"cannot examine", inp.path, some e⟩)
    | none =>
      match inp.gzipErr with
      | some e => (none, some ⟨"cannot decompress", inp.path, some e⟩)
      | none =>
        match scanEntries inp.path
            ⟨{ Dir := (filepathSplit inp.path).1,
               Filename := (filepathSplit inp.path).2,
               PuzzleFileSize := inp.fileSize }, -1, List.replicate 512 0⟩
            inp.tarEntries with
        | .error err => (none, some err)
        | .ok st =>
          match inp.tarReadErr with
          | some e =>
            (none, some ⟨"cannot read decompressed TAR file", inp.path, some e⟩)
          | none =>
            (some { st.ret with
                Warnings := st.ret.Warnings
                  ++ tallyWarnings st.piecesFound st.maxPieceNum,
                NPieceFiles := st.maxPieceNum + 1 }, none)

/-- Piece index denoted by a tar entry, when its name matches `rePieceName`
and the captured digits parse: the entries that reach `piecesFound[i]++`. -/
def entryIndex (e : TarEntry) : Option Nat := (rePieceName e.name).bind atoiDigits

/-- All piece indices of an entry list, in archive order. -/
def pieceIdxs (es : List TarEntry) : List Nat := es.filterMap entryIndex

/-- Number of occurrences of piece index `i` among the entries. -/
def occ (es : List TarEntry) (i : Nat) : Nat := (pieceIdxs es).count i

/-- Running-maximum fold mirroring `if i > maxPieceNum`. -/
def maxFrom (m : Int) (es : List TarEntry) : Int :=
  (pieceIdxs es).foldl (fun a (i : Nat) => if (i : Int) > a then (i : Int) else a) m

/-- Last-wins fold for the declared byte size of `image.jpg` entries. -/
def lastImageSize (d : Int) (es : List TarEntry) : Int :=
  es.foldl (fun a e => if e.name = "image.jpg" then e.size else a) d

/-- Concatenation of the content lines of all `pala.desktop` entries, in
archive order. -/
def desktopLines (es : List TarEntry) : List String :=
  (es.filter (fun e => e.name == "pala.desktop")).flatMap TarEntry.lines

/-- Effect of one descriptor line on the declared piece count alone. -/
def declStep (d : Int) (line : String) : Int :=
  match reKeyValue line with
  | none => d
  | some kv =>
    if kv.1 = "PieceCount" ∨ kv.1 = "020_PieceCount" then
      match atoi (trimSpace kv.2) with
      | some n => n
      | none => -1
    else d

/-- Declared piece count after a sequence of descriptor lines. -/
def declFold (d : Int) (lines : List String) : Int := lines.foldl declStep d

/-- Warnings contributed by a tally slot holding count `c` at index `i`. -/
def warnAt (c : Nat) (i : Nat) : List String :=
  if c = 0 then [missingStr i] else if 1 < c then [dupStr c i] else []

/-- The suffix of cause text `Error.Error` appends: empty for a nil base
error, else `: ` followed by the message of the base error with one
`os.PathError` level unwrapped. -/
def causeStr : Option GoError → String
  | none => ""
  | some be =>
    ": " ++ (match be with
      | .pathError _ _ inner => inner
      | other => other).message

/-! ### Basic facts about the helpers -/

theorem pieceWarnAt_eq_warnAt (pf : List Nat) (i : Nat) :
    pieceWarnAt pf i = warnAt (pf.getD i 0) i := rfl

theorem replicate_getD (n j : Nat) : (List.replicate n (0 : Nat)).getD j 0 = 0 := by
  simp only [List.getD_eq_getElem?_getD, List.getElem?_replicate]
  split <;> rfl

theorem growBuffer_getD (pf : List Nat) (i j : Nat) :
    (growBuffer pf i).getD j 0 = pf.getD j 0 := by
  unfold growBuffer
  split
  · rcases Nat.lt_or_ge j pf.length with hj | hj
    · simp [List.getD_eq_getElem?_getD, List.getElem?_append, hj]
    · have h1 : pf[j]? = none := by
        rw [List.getElem?_eq_none_iff]; omega
      simp only [List.getD_eq_getElem?_getD, List.getElem?_append_right hj,
        List.getElem?_replicate, h1]
      split <;> rfl
  · rfl

theorem growBuffer_length_ge (pf : List Nat) (i : Nat) :
    pf.length ≤ (growBuffer pf i).length := by
  unfold growBuffer; split <;> simp

theorem growBuffer_length_eq (pf : List Nat) (i : Nat) (h : pf.length ≤ i) :
    (growBuffer pf i).length = 2 * i := by
  unfold growBuffer
  rw [if_pos h, List.length_append, List.length_replicate]
  omega

theorem growBuffer_index_lt (pf : List Nat) (i : Nat) (h : 1 ≤ pf.length) :
    i < (growBuffer pf i).length := by
  unfold growBuffer
  split
  · rw [List.length_append, List.length_replicate]; omega
  · omega

theorem getD_set_self (l : List Nat) (i v : Nat) (h : i < l.length) :
    (l.set i v).getD i 0 = v := by
  simp [List.getD_eq_getElem?_getD, List.getElem?_set, h]

theorem getD_set_ne (l : List Nat) (i j v : Nat) (h : i ≠ j) :
    (l.set i v).getD j 0 = l.getD j 0 := by
  simp [List.getD_eq_getElem?_getD, List.getElem?_set, h]

/-! ### Decimal rendering facts -/

theorem natDigitsAux_head (fuel : Nat) :
    ∀ n, n < fuel → ∃ c cs, natDigitsAux fuel n = c :: cs
      ∧ 48 ≤ c.toNat ∧ c.toNat ≤ 57 := by
  induction fuel with
  | zero => intro n h; omega
  | succ fuel ih =>
    intro n _
    unfold natDigitsAux
    split
    · rename_i h10
      refine ⟨digitChar n, [], rfl, ?_, ?_⟩ <;>
        (interval_cases n <;> decide)
    · rename_i h10
      have hlt : n / 10 < n := Nat.div_lt_self (by omega) (by omega)
      have hfuel : n / 10 < fuel := by omega
      obtain ⟨c, cs, heq, h1, h2⟩ := ih (n / 10) hfuel
      exact ⟨c, cs ++ [digitChar (n % 10)], by rw [heq]; rfl, h1, h2⟩

theorem natRepr_head (n : Nat) :
    ∃ c cs, (natRepr n).data = c :: cs ∧ 48 ≤ c.toNat ∧ c.toNat ≤ 57 :=
  natDigitsAux_head (n + 1) n (Nat.lt_succ_self n)

theorem badStr_ne_missingStr (v : String) (i : Nat) :
    badPieceCountStr v ≠ missingStr i := by
  intro h
  have hd : (badPieceCountStr v).data = (missingStr i).data := by rw [h]
  have h1 : (badPieceCountStr v).data.head? = some 'b' := by
    simp [badPieceCountStr, String.data_append]
  have h2 : (missingStr i).data.head? = some 'm' := by
    simp [missingStr, String.data_append]
  rw [hd, h2] at h1
  exact absurd (Option.some.inj h1) (by decide)

theorem badStr_ne_dupStr (v : String) (c i : Nat) :
    badPieceCountStr v ≠ dupStr c i := by
  intro h
  have hd : (badPieceCountStr v).data = (dupStr c i).data := by rw [h]
  have h1 : (badPieceCountStr v).data.head? = some 'b' := by
    simp [badPieceCountStr, String.data_append]
  obtain ⟨ch, cs, heq, hlo, hhi⟩ := natRepr_head c
  have h2 : (dupStr c i).data.head? = some ch := by
    simp [dupStr, String.data_append, heq]
  rw [hd, h2] at h1
  have : ch = 'b' := Option.some.inj h1
  subst this
  have hb : ('b').toNat = 98 := by decide
  omega

/-! ### Descriptor parser facts -/

theorem processDesktopLine_none (out : PuzzleInfo) (line : String)
    (h : reKeyValue line = none) : processDesktopLine out line = out := by
  unfold processDesktopLine
  rw [h]

theorem processDesktopLine_unknown (out : PuzzleInfo) (line : String)
    (k v : String) (h : reKeyValue line = some (k, v))
    (h1 : k ≠ "Name") (h2 : k ≠ "X-KDE-PluginInfo-Author") (h3 : k ≠ "Comment")
    (h4 : k ≠ "PieceCount") (h5 : k ≠ "020_PieceCount") :
    processDesktopLine out line = out := by
  unfold processDesktopLine
  rw [h]
  simp only [h1, h2, h3, if_false]
  rw [if_neg (by simp [h4, h5])]

theorem processDesktopLine_spec (out : PuzzleInfo) (line : String) :
    (processDesktopLine out line).ImageFileSize = out.ImageFileSize
    ∧ (processDesktopLine out line).NPiecesDecl = declStep out.NPiecesDecl line
    ∧ ((processDesktopLine out line).Warnings = out.Warnings
       ∨ ∃ v, (processDesktopLine out line).Warnings
           = out.Warnings ++ [badPieceCountStr v]) := by
  unfold processDesktopLine declStep
  rcases h : reKeyValue line with _ | ⟨k, v⟩
  · simp
  · simp only
    by_cases h1 : k = "Name"
    · have hpc : ¬(k = "PieceCount" ∨ k = "020_PieceCount") := by subst h1; decide
      simp [h1, hpc]
    · by_cases h2 : k = "X-KDE-PluginInfo-Author"
      · have hpc : ¬(k = "PieceCount" ∨ k = "020_PieceCount") := by subst h2; decide
        simp [h1, h2, hpc]
      · by_cases h3 : k = "Comment"
        · have hpc : ¬(k = "PieceCount" ∨ k = "020_PieceCount") := by
            subst h3; decide
          simp [h1, h2, h3, hpc]
        · by_cases h4 : k = "PieceCount" ∨ k = "020_PieceCount"
          · rw [if_neg h1, if_neg h2, if_neg h3, if_pos h4, if_pos h4]
            rcases ha : atoi (trimSpace v) with _ | n
            · exact ⟨rfl, rfl, Or.inr ⟨trimSpace v, rfl⟩⟩
            · simp
          · simp [h1, h2, h3, h4]

theorem desktopFold_spec (lines : List String) (out : PuzzleInfo) :
    (lines.foldl processDesktopLine out).ImageFileSize = out.ImageFileSize
    ∧ (lines.foldl processDesktopLine out).NPiecesDecl = declFold out.NPiecesDecl lines
    ∧ ∃ w, (lines.foldl processDesktopLine out).Warnings = out.Warnings ++ w
        ∧ ∀ x ∈ w, ∃ v, x = badPieceCountStr v := by
  induction lines generalizing out with
  | nil => exact ⟨rfl, rfl, [], by simp, by simp⟩
  | cons l rest ih =>
    simp only [List.foldl_cons]
    obtain ⟨p1, p2, p3⟩ := processDesktopLine_spec out l
    obtain ⟨h1, h2, w, hw, hform⟩ := ih (processDesktopLine out l)
    refine ⟨by rw [h1, p1], by rw [h2, p2]; rfl, ?_⟩
    rcases p3 with hsame | ⟨v, hone⟩
    · exact ⟨w, by rw [hw, hsame], hform⟩
    · refine ⟨badPieceCountStr v :: w, by rw [hw, hone]; simp, ?_⟩
      intro x hx
      rcases List.mem_cons.mp hx with hx | hx
      · exact ⟨v, hx⟩
      · exact hform x hx

/-! ### Entry loop: one step -/

/-- Contribution of one entry to the occurrence count of index `j`. -/
def occOf (e : TarEntry) (j : Nat) : Nat :=
  match entryIndex e with
  | some i => if i = j then 1 else 0
  | none => 0

/-- Invariant of a reachable loop state: the tally buffer is at least the
initial 512 bytes long and every slot holds a byte value. -/
def PreSt (st : LoopState) : Prop :=
  512 ≤ st.piecesFound.length ∧ ∀ i, st.piecesFound.getD i 0 < 256

theorem rePieceName_image : rePieceName "image.jpg" = none := by decide

theorem rePieceName_desktop : rePieceName "pala.desktop" = none := by decide

theorem stepEntry_ok_spec (path : String) (st st2 : LoopState) (e : TarEntry)
    (h : stepEntry path st e = .ok st2) (hpre : PreSt st) :
    PreSt st2
    ∧ (∀ j, st2.piecesFound.getD j 0
        = (st.piecesFound.getD j 0 + occOf e j) % 256)
    ∧ st2.maxPieceNum = (match entryIndex e with
        | some i => if (i : Int) > st.maxPieceNum then (i : Int) else st.maxPieceNum
        | none => st.maxPieceNum)
    ∧ st.piecesFound.length ≤ st2.piecesFound.length
    ∧ st2.ret.ImageFileSize
        = (if e.name = "image.jpg" then e.size else st.ret.ImageFileSize)
    ∧ st2.ret.NPiecesDecl
        = declFold st.ret.NPiecesDecl (if e.name = "pala.desktop" then e.lines else [])
    ∧ (∃ w, st2.ret.Warnings = st.ret.Warnings ++ w
        ∧ ∀ x ∈ w, ∃ v, x = badPieceCountStr v)
    ∧ ((rePieceName e.name).isSome → (entryIndex e).isSome) := by
  obtain ⟨hlen, hbyte⟩ := hpre
  unfold stepEntry at h
  rcases hm : rePieceName e.name with _ | digits
  · rw [hm] at h
    have hidx : entryIndex e = none := by unfold entryIndex; rw [hm]; rfl
    have hocc : ∀ j, occOf e j = 0 := by intro j; unfold occOf; rw [hidx]
    by_cases himg : e.name = "image.jpg"
    · rw [if_pos himg] at h
      cases h
      refine ⟨⟨hlen, hbyte⟩, ?_, by rw [hidx], le_refl _, by rw [if_pos himg],
        ?_, ⟨[], by simp, by simp⟩, by simp⟩
      · intro j; rw [hocc, Nat.add_zero, Nat.mod_eq_of_lt (hbyte j)]
      · have hnd : e.name ≠ "pala.desktop" := by rw [himg]; decide
        rw [if_neg hnd]; rfl
    · rw [if_neg himg] at h
      by_cases hdesk : e.name = "pala.desktop"
      · rw [if_pos hdesk] at h
        unfold scanPalaDesktopFile at h
        rcases hre : e.readErr with _ | ge
        · rw [hre] at h
          simp only at h
          cases h
          obtain ⟨d1, d2, w, hw, hform⟩ := desktopFold_spec e.lines st.ret
          exact ⟨⟨hlen, hbyte⟩,
            (fun j => by rw [hocc, Nat.add_zero, Nat.mod_eq_of_lt (hbyte j)]),
            by rw [hidx], le_refl _,
            by rw [if_neg himg]; exact d1,
            by rw [if_pos hdesk]; exact d2,
            ⟨w, hw, hform⟩,
            by simp⟩
        · rw [hre] at h
          simp only at h
          cases h
      · rw [if_neg hdesk] at h
        cases h
        refine ⟨⟨hlen, hbyte⟩,
          (fun j => by rw [hocc, Nat.add_zero, Nat.mod_eq_of_lt (hbyte j)]),
          by rw [hidx], le_refl _, by rw [if_neg himg],
          by rw [if_neg hdesk]; rfl,
          ⟨[], by simp, by simp⟩, by simp⟩
  · rw [hm] at h
    simp only at h
    rcases ha : atoiDigits digits with _ | i
    · rw [ha] at h; cases h
    · rw [ha] at h
      simp only at h
      cases h
      have hidx : entryIndex e = some i := by
        unfold entryIndex; rw [hm]; exact ha
      have himg : e.name ≠ "image.jpg" := by
        intro hc; rw [hc, rePieceName_image] at hm; cases hm
      have hdesk : e.name ≠ "pala.desktop" := by
        intro hc; rw [hc, rePieceName_desktop] at hm; cases hm
      have hgi : i < (growBuffer st.piecesFound i).length :=
        growBuffer_index_lt _ _ (by omega)
      have hglen : st.piecesFound.length ≤ (growBuffer st.piecesFound i).length :=
        growBuffer_length_ge _ _
      constructor
      · constructor
        · simp only [List.length_set]; omega
        · intro j
          by_cases hij : i = j
          · subst hij
            rw [getD_set_self _ _ _ hgi]
            exact Nat.mod_lt _ (by omega)
          · rw [getD_set_ne _ _ _ _ hij, growBuffer_getD]
            exact hbyte j
      refine ⟨?_, by rw [hidx], ?_, by rw [if_neg himg], ?_,
        ⟨[], by simp, by simp⟩, fun _ => by rw [hidx]; rfl⟩
      · intro j
        unfold occOf
        rw [hidx]
        simp only
        by_cases hij : i = j
        · subst hij
          rw [getD_set_self _ _ _ hgi, growBuffer_getD, if_pos rfl]
        · rw [getD_set_ne _ _ _ _ hij, growBuffer_getD, if_neg hij,
            Nat.add_zero, Nat.mod_eq_of_lt (hbyte j)]
      · simp only [List.length_set]; omega
      · rw [if_neg hdesk]; rfl

/-! ### Entry loop: full pass -/

theorem occ_cons (e : TarEntry) (es : List TarEntry) (j : Nat) :
    occ (e :: es) j = occOf e j + occ es j := by
  unfold occ pieceIdxs occOf
  rw [List.filterMap_cons]
  rcases entryIndex e with _ | i
  · simp
  · simp only [List.count_cons, beq_iff_eq]
    by_cases hij : i = j
  <;> simp [hij, Nat.add_comm]

theorem maxFrom_cons (e : TarEntry) (es : List TarEntry) (m : Int) :
    maxFrom m (e :: es) = maxFrom (match entryIndex e with
      | some i => if (i : Int) > m then (i : Int) else m
      | none => m) es := by
  unfold maxFrom pieceIdxs
  rw [List.filterMap_cons]
  rcases entryIndex e with _ | i <;> simp

theorem lastImageSize_cons (e : TarEntry) (es : List TarEntry) (d : Int) :
    lastImageSize d (e :: es)
      = lastImageSize (if e.name = "image.jpg" then e.size else d) es := rfl

theorem desktopLines_cons (e : TarEntry) (es : List TarEntry) :
    desktopLines (e :: es)
      = (if e.name = "pala.desktop" then e.lines else []) ++ desktopLines es := by
  unfold desktopLines
  rw [List.filter_cons]
  by_cases h : e.name = "pala.desktop"
  · simp [h]
  · simp [h]

theorem declFold_append (d : Int) (l1 l2 : List String) :
    declFold d (l1 ++ l2) = declFold (declFold d l1) l2 :=
  List.foldl_append _ _ _ _

theorem scanEntries_cons (path : String) (st st' : LoopState) (e : TarEntry)
    (es : List TarEntry) (h : scanEntries path st (e :: es) = .ok st') :
    ∃ st2, stepEntry path st e = .ok st2 ∧ scanEntries path st2 es = .ok st' := by
  unfold scanEntries at h
  rcases hs : stepEntry path st e with err | st2 <;> rw [hs] at h
  · cases h
  · exact ⟨st2, rfl, h⟩

theorem scanEntries_ok_spec (path : String) (es : List TarEntry)
    (st st' : LoopState) (h : scanEntries path st es = .ok st') (hpre : PreSt st) :
    PreSt st'
    ∧ (∀ j, st'.piecesFound.getD j 0 = (st.piecesFound.getD j 0 + occ es j) % 256)
    ∧ st'.maxPieceNum = maxFrom st.maxPieceNum es
    ∧ st.piecesFound.length ≤ st'.piecesFound.length
    ∧ st'.ret.ImageFileSize = lastImageSize st.ret.ImageFileSize es
    ∧ st'.ret.NPiecesDecl = declFold st.ret.NPiecesDecl (desktopLines es)
    ∧ (∃ w, st'.ret.Warnings = st.ret.Warnings ++ w
        ∧ ∀ x ∈ w, ∃ v, x = badPieceCountStr v)
    ∧ (∀ e ∈ es, (rePieceName e.name).isSome → (entryIndex e).isSome) := by
  induction es generalizing st with
  | nil =>
    cases h
    obtain ⟨h1, h2⟩ := hpre
    refine ⟨⟨h1, h2⟩, ?_, rfl, le_refl _, rfl, rfl, ⟨[], by simp, by simp⟩, by simp⟩
    intro j
    rw [show occ [] j = 0 from rfl, Nat.add_zero, Nat.mod_eq_of_lt (h2 j)]
  | cons e es ih =>
    obtain ⟨st2, hstep, hrest⟩ := scanEntries_cons path st st' e es h
    obtain ⟨pre2, scount, smax, slen, simg, sdecl, ⟨w1, hw1, hf1⟩, sparse⟩ :=
      stepEntry_ok_spec path st st2 e hstep hpre
    obtain ⟨pre', rcount, rmax, rlen, rimg, rdecl, ⟨w2, hw2, hf2⟩, rparse⟩ :=
      ih st2 hrest pre2
    refine ⟨pre', ?_, ?_, le_trans slen rlen, ?_, ?_, ?_, ?_⟩
    · intro j
      rw [rcount j, scount j, occ_cons, Nat.mod_add_mod, Nat.add_assoc]
    · rw [rmax, maxFrom_cons, smax]
    · rw [rimg, lastImageSize_cons, simg]
    · rw [rdecl, desktopLines_cons, declFold_append, sdecl]
    · refine ⟨w1 ++ w2, by rw [hw2, hw1, List.append_assoc], ?_⟩
      intro x hx
      rcases List.mem_append.mp hx with hx | hx
      · exact hf1 x hx
      · exact hf2 x hx
    · intro e2 he2
      rcases List.mem_cons.mp he2 with he2 | he2
      · subst he2; exact sparse
      · exact rparse e2 he2

/-! ### Facts about the running maximum -/

theorem foldlMax_ge_init (l : List Nat) (m : Int) :
    m ≤ l.foldl (fun a (i : Nat) => if (i : Int) > a then (i : Int) else a) m := by
  induction l generalizing m with
  | nil => exact le_refl m
  | cons x l ih =>
    refine le_trans ?_ (ih (if (x : Int) > m then (x : Int) else m))
    split <;> omega

theorem foldlMax_mem_le (l : List Nat) (m : Int) (x : Nat) (hx : x ∈ l) :
    (x : Int) ≤ l.foldl (fun a (i : Nat) => if (i : Int) > a then (i : Int) else a) m := by
  induction l generalizing m with
  | nil => cases hx
  | cons y l ih =>
    rw [List.foldl_cons]
    rcases List.mem_cons.mp hx with h1 | h1
    · subst h1
      refine le_trans ?_ (foldlMax_ge_init l _)
      split <;> omega
    · exact ih _ h1

theorem foldlMax_cases (l : List Nat) (m : Int) :
    l.foldl (fun a (i : Nat) => if (i : Int) > a then (i : Int) else a) m = m
    ∨ ∃ x ∈ l, l.foldl (fun a (i : Nat) => if (i : Int) > a then (i : Int) else a) m = (x : Int) := by
  induction l generalizing m with
  | nil => exact Or.inl rfl
  | cons y l ih =>
    rw [List.foldl_cons]
    rcases ih (if (y : Int) > m then (y : Int) else m) with hc | ⟨x, hx, hc⟩
    · rw [hc]
      split
      · exact Or.inr ⟨y, List.mem_cons_self y l, rfl⟩
      · exact Or.inl rfl
    · exact Or.inr ⟨x, List.mem_cons_of_mem y hx, hc⟩

theorem maxFrom_ge_init (es : List TarEntry) (m : Int) : m ≤ maxFrom m es :=
  foldlMax_ge_init _ m

theorem maxFrom_mem_le (es : List TarEntry) (m : Int) (x : Nat)
    (hx : x ∈ pieceIdxs es) : (x : Int) ≤ maxFrom m es :=
  foldlMax_mem_le _ m x hx

theorem maxFrom_cases (es : List TarEntry) (m : Int) :
    maxFrom m es = m ∨ ∃ x ∈ pieceIdxs es, maxFrom m es = (x : Int) :=
  foldlMax_cases _ m

/-! ### Reconciliation loop as an ascending concatenation -/

theorem foldl_append_flat (f : Nat → List String) (l : List Nat) (acc : List String) :
    l.foldl (fun ws i => ws ++ f i) acc = acc ++ l.flatMap f := by
  induction l generalizing acc with
  | nil => simp
  | cons x l ih => simp [List.foldl_cons, List.flatMap_cons, ih, List.append_assoc]

theorem tallyWarnings_flat (pf : List Nat) (mx : Int) :
    tallyWarnings pf mx
      = (List.range mx.toNat).flatMap (fun i => warnAt (pf.getD i 0) i) := by
  unfold tallyWarnings
  rw [foldl_append_flat (fun i => pieceWarnAt pf i) (List.range mx.toNat) []]
  rfl

theorem tallyWarnings_congr (pf : List Nat) (mx : Int) (c : Nat → Nat)
    (hc : ∀ i, pf.getD i 0 = c i) :
    tallyWarnings pf mx = (List.range mx.toNat).flatMap (fun i => warnAt (c i) i) := by
  rw [tallyWarnings_flat]
  have : (fun i => warnAt (pf.getD i 0) i) = (fun i => warnAt (c i) i) :=
    funext (fun i => by rw [hc i])
  rw [this]

/-! ### Last image entry wins -/

theorem lastImageSize_eq_getLast (es : List TarEntry) (d : Int) :
    lastImageSize d es
      = (((es.filter (fun e => e.name == "image.jpg")).getLast?).map TarEntry.size).getD d := by
  induction es generalizing d with
  | nil => rfl
  | cons e es ih =>
    rw [lastImageSize_cons, List.filter_cons]
    by_cases h : e.name = "image.jpg"
    · rw [if_pos h, if_pos (by simpa using h)]
      rw [ih e.size]
      rcases hfe : es.filter (fun e => e.name == "image.jpg") with _ | ⟨y, ys⟩
      · rw [hfe]; rfl
      · rw [hfe, List.getLast?_cons_cons]
        rcases hl : (y :: ys).getLast? with _ | z
        · rw [List.getLast?_eq_none_iff] at hl; cases hl
        · rfl
    · rw [if_neg h, if_neg (by simpa using h)]
      exact ih d

/-! ### Every error carries the scanned path -/

theorem stepEntry_error_path (path : String) (st : LoopState) (e : TarEntry)
    (err : Error) (h : stepEntry path st e = .error err) : err.FilePath = path := by
  unfold stepEntry at h
  rcases hm : rePieceName e.name with _ | digits <;> rw [hm] at h <;> try simp only at h
  · by_cases himg : e.name = "image.jpg"
    · rw [if_pos himg] at h; cases h
    · rw [if_neg himg] at h
      by_cases hdesk : e.name = "pala.desktop"
      · rw [if_pos hdesk] at h
        unfold scanPalaDesktopFile at h
        rcases hre : e.readErr with _ | ge <;> rw [hre] at h <;> try simp only at h
        · cases h
        · cases h; rfl
      · rw [if_neg hdesk] at h; cases h
  · rcases ha : atoiDigits digits with _ | i <;> rw [ha] at h <;> try simp only at h
    · cases h; rfl
    · cases h

theorem scanEntries_error_path (path : String) (es : List TarEntry)
    (st : LoopState) (err : Error)
    (h : scanEntries path st es = .error err) : err.FilePath = path := by
  induction es generalizing st with
  | nil => cases h
  | cons e es ih =>
    unfold scanEntries at h
    rcases hs : stepEntry path st e with err2 | st2 <;> rw [hs] at h <;> try simp only at h
    · cases h; exact stepEntry_error_path path st e _ hs
    · exact ih st2 h

/-! ### Unpacking a successful scan -/

theorem ScanPuzzle_ok_destruct (inp : ScanInput) (r : PuzzleInfo)
    (h : ScanPuzzle inp = (some r, none)) :
    ∃ st, scanEntries inp.path
        ⟨{ Dir := (filepathSplit inp.path).1, Filename := (filepathSplit inp.path).2,
           PuzzleFileSize := inp.fileSize }, -1, List.replicate 512 0⟩
        inp.tarEntries = .ok st
      ∧ r = { st.ret with
          Warnings := st.ret.Warnings ++ tallyWarnings st.piecesFound st.maxPieceNum,
          NPieceFiles := st.maxPieceNum + 1 } := by
  unfold ScanPuzzle at h
  rcases ho : inp.openErr with _ | e1
  · rw [ho] at h
    try simp only at h
    rcases hs : inp.statErr with _ | e2
    · rw [hs] at h
      try simp only at h
      rcases hg : inp.gzipErr with _ | e3
      · rw [hg] at h
        try simp only at h
        rcases hsc : scanEntries inp.path
            ⟨{ Dir := (filepathSplit inp.path).1,
               Filename := (filepathSplit inp.path).2,
               PuzzleFileSize := inp.fileSize }, -1, List.replicate 512 0⟩
            inp.tarEntries with err | st
        · rw [hsc] at h
          try simp only at h
          rw [Prod.mk.injEq] at h
          exact absurd h.1.symm (Option.some_ne_none r)
        · rw [hsc] at h
          try simp only at h
          rcases ht : inp.tarReadErr with _ | e4
          · rw [ht] at h
            try simp only at h
            rw [Prod.mk.injEq] at h
            exact ⟨st, rfl, (Option.some.inj h.1).symm⟩
          · rw [ht] at h
            try simp only at h
            rw [Prod.mk.injEq] at h
            exact absurd h.1.symm (Option.some_ne_none r)
      · rw [hg] at h
        try simp only at h
        rw [Prod.mk.injEq] at h
        exact absurd h.1.symm (Option.some_ne_none r)
    · rw [hs] at h
      try simp only at h
      rw [Prod.mk.injEq] at h
      exact absurd h.1.symm (Option.some_ne_none r)
  · rw [ho] at h
    try simp only at h
    rw [Prod.mk.injEq] at h
    exact absurd h.1.symm (Option.some_ne_none r)

/-- Initial loop state invariant. -/
theorem PreSt_init (inp : ScanInput) :
    PreSt ⟨{ Dir := (filepathSplit inp.path).1, Filename := (filepathSplit inp.path).2,
             PuzzleFileSize := inp.fileSize }, -1, List.replicate 512 0⟩ := by
  constructor
  · rw [show (List.replicate 512 (0 : Nat)).length = 512 from List.length_replicate 512 0]
  · intro i; rw [replicate_getD]; omega

/-- Everything the claims need about a successful scan, in terms of the
archive's entry list. -/
theorem ScanPuzzle_ok_spec (inp : ScanInput) (r : PuzzleInfo)
    (h : ScanPuzzle inp = (some r, none)) :
    r.NPieceFiles = maxFrom (-1) inp.tarEntries + 1
    ∧ r.ImageFileSize = lastImageSize 0 inp.tarEntries
    ∧ r.NPiecesDecl = declFold 0 (desktopLines inp.tarEntries)
    ∧ (∃ w, r.Warnings = w ++ (List.range (maxFrom (-1) inp.tarEntries).toNat).flatMap
          (fun i => warnAt (occ inp.tarEntries i % 256) i)
        ∧ ∀ x ∈ w, ∃ v, x = badPieceCountStr v)
    ∧ (∀ e ∈ inp.tarEntries, (rePieceName e.name).isSome → (entryIndex e).isSome) := by
  obtain ⟨st, hscan, hr⟩ := ScanPuzzle_ok_destruct inp r h
  obtain ⟨hpre', hcount, hmax, hlen, himg, hdecl, ⟨w, hw, hform⟩, hparse⟩ :=
    scanEntries_ok_spec inp.path inp.tarEntries _ st hscan (PreSt_init inp)
  subst hr
  refine ⟨by rw [hmax], by rw [himg], by rw [hdecl], ?_, hparse⟩
  refine ⟨w, ?_, hform⟩
  have hcval : ∀ j, st.piecesFound.getD j 0 = occ inp.tarEntries j % 256 := by
    intro j
    rw [hcount j, replicate_getD, Nat.zero_add]
  simp only [hw, List.nil_append]
  rw [tallyWarnings_congr st.piecesFound st.maxPieceNum _ hcval, hmax]

/-- Membership of a tally warning in the final warning list, for any index
strictly below the running maximum. -/
theorem warn_mem_of_scan (inp : ScanInput) (r : PuzzleInfo)
    (h : ScanPuzzle inp = (some r, none)) (i : Nat)
    (hi : (i : Int) < maxFrom (-1) inp.tarEntries) (s : String)
    (hs : s ∈ warnAt (occ inp.tarEntries i % 256) i) : s ∈ r.Warnings := by
  obtain ⟨-, -, -, ⟨w, hw, -⟩, -⟩ := ScanPuzzle_ok_spec inp r h
  rw [hw]
  refine List.mem_append_right _ ?_
  refine List.mem_flatMap.mpr ⟨i, List.mem_range.mpr ?_, hs⟩
  omega

/-! ### Error destructuring for a failed scan -/

theorem ScanPuzzle_error_path (inp : ScanInput) (e : Error)
    (h : ScanPuzzle inp = (none, some e)) : e.FilePath = inp.path := by
  unfold ScanPuzzle at h
  rcases ho : inp.openErr with _ | e1
  · rw [ho] at h
    try simp only at h
    rcases hs : inp.statErr with _ | e2
    · rw [hs] at h
      try simp only at h
      rcases hg : inp.gzipErr with _ | e3
      · rw [hg] at h
        try simp only at h
        rcases hsc : scanEntries inp.path
            ⟨{ Dir := (filepathSplit inp.path).1,
               Filename := (filepathSplit inp.path).2,
               PuzzleFileSize := inp.fileSize }, -1, List.replicate 512 0⟩
            inp.tarEntries with err | st
        · rw [hsc] at h
          try simp only at h
          rw [Prod.mk.injEq] at h
          rw [← Option.some.inj h.2]
          exact scanEntries_error_path inp.path inp.tarEntries _ err hsc
        · rw [hsc] at h
          try simp only at h
          rcases ht : inp.tarReadErr with _ | e4
          · rw [ht] at h
            try simp only at h
            rw [Prod.mk.injEq] at h
            exact absurd h.1 (Option.some_ne_none _)
          · rw [ht] at h
            try simp only at h
            rw [Prod.mk.injEq] at h
            rw [← Option.some.inj h.2]
      · rw [hg] at h
        try simp only at h
        rw [Prod.mk.injEq] at h
        rw [← Option.some.inj h.2]
    · rw [hs] at h
      try simp only at h
      rw [Prod.mk.injEq] at h
      rw [← Option.some.inj h.2]
  · rw [ho] at h
    try simp only at h
    rw [Prod.mk.injEq] at h
    rw [← Option.some.inj h.2]

theorem Error_render_eq (e : Error) :
    e.Error = "cannot " ++ e.Action ++ " \"" ++ e.FilePath ++ "\""
      ++ causeStr e.BaseError := by
  unfold Error.Error causeStr
  rcases e.BaseError with _ | be
  · rfl
  · rcases be with m | ⟨op, p, inner⟩ <;> rfl

/-! ### Claim theorems -/

/-- C6: for every input, a scan produces exactly one of a record and an
error: every outcome of `ScanPuzzle` is either `(some record, none)` or
`(none, some error)`; no partial record ever accompanies an error. -/
theorem C6_exactly_one_of_record_or_error (inp : ScanInput) :
    (∃ r, ScanPuzzle inp = (some r, none)) ∨ (∃ e, ScanPuzzle inp = (none, some e)) := by
  unfold ScanPuzzle
  rcases inp.openErr with _ | e1
  · rcases inp.statErr with _ | e2
    · rcases inp.gzipErr with _ | e3
      · rcases scanEntries inp.path
            ⟨{ Dir := (filepathSplit inp.path).1,
               Filename := (filepathSplit inp.path).2,
               PuzzleFileSize := inp.fileSize }, -1, List.replicate 512 0⟩
            inp.tarEntries with err | st
        · exact Or.inr ⟨err, rfl⟩
        · rcases inp.tarReadErr with _ | e4
          · exact Or.inl ⟨_, rfl⟩
          · exact Or.inr ⟨_, rfl⟩
      · exact Or.inr ⟨_, rfl⟩
    · exact Or.inr ⟨_, rfl⟩
  · exact Or.inr ⟨_, rfl⟩

/-- C8: every error value produced by a scan renders as
`cannot <action> "<path>"[: <cause>]` with the scanned path as the quoted
path; the cause suffix is empty for a nil base error, and an
`os.PathError` base error is unwrapped exactly one level, using the inner
error message. -/
theorem C8_error_rendering (inp : ScanInput) (e : Error)
    (h : ScanPuzzle inp = (none, some e)) :
    e.FilePath = inp.path
    ∧ e.Error = "cannot " ++ e.Action ++ " \"" ++ inp.path ++ "\""
        ++ causeStr e.BaseError
    ∧ (e.BaseError = none → causeStr e.BaseError = "")
    ∧ (∀ op p inner, e.BaseError = some (.pathError op p inner) →
        causeStr e.BaseError = ": " ++ inner.message) := by
  have hp : e.FilePath = inp.path := ScanPuzzle_error_path inp e h
  refine ⟨hp, by rw [Error_render_eq, hp], ?_, ?_⟩
  · intro hb; rw [hb]; rfl
  · intro op p inner hb; rw [hb]; rfl

/-- C10: tally-buffer writes are in bounds: if the buffer has the initial
length 512 or more, then after the growth step the written index is strictly
inside the buffer; growing replaces the buffer by one of length `2*i`
preserving all prior counts, and the length never drops below 512. -/
theorem C10_tally_write_in_bounds (pf : List Nat) (i : Nat) (h : 512 ≤ pf.length) :
    i < (growBuffer pf i).length
    ∧ (pf.length ≤ i → (growBuffer pf i).length = 2 * i)
    ∧ (∀ j, (growBuffer pf i).getD j 0 = pf.getD j 0)
    ∧ 512 ≤ (growBuffer pf i).length :=
  ⟨growBuffer_index_lt pf i (by omega), growBuffer_length_eq pf i,
    growBuffer_getD pf i, le_trans h (growBuffer_length_ge pf i)⟩

theorem C10_witness :
    512 ≤ (List.replicate 512 (0 : Nat)).length
    ∧ 1000 < (growBuffer (List.replicate 512 (0 : Nat)) 1000).length
    ∧ (growBuffer (List.replicate 512 (0 : Nat)) 1000).length = 2 * 1000 := by
  have h : 512 ≤ (List.replicate 512 (0 : Nat)).length := by
    rw [List.length_replicate]
  obtain ⟨h1, h2, h3, h4⟩ := C10_tally_write_in_bounds (List.replicate 512 0) 1000 h
  exact ⟨h, h1, h2 (by rw [List.length_replicate]; omega)⟩

/-- Lines whose first character is `[` (bracketed group headers) never match
the key=value pattern, because a key may not contain `[`. -/
theorem reKeyValue_bracket (line : String) (h : line.data.head? = some '[') :
    reKeyValue line = none := by
  unfold reKeyValue
  rcases hd : line.data with _ | ⟨c, t⟩
  · rw [hd] at h
    exact Option.noConfusion h
  · rw [hd] at h
    have hc : c = '[' := Option.some.inj h
    subst hc
    rcases hf : List.findIdx? (fun ch => decide (ch = '=')) ('[' :: t) with _ | p
    · rfl
    · simp only
      rcases p with _ | q
      · rw [if_pos (Or.inl rfl)]
      · rw [if_pos (Or.inr (by simp [List.take_succ_cons, List.contains_cons]))]

/-- C5: the descriptor parser is lenient: a non-matching line or a line with
an unrecognized key changes nothing and produces no warning; a line whose
first character is `[` never matches; and the parser reports an error
exactly when the underlying stream failed. -/
theorem C5_descriptor_leniency :
    (∀ out line, reKeyValue line = none → processDesktopLine out line = out)
    ∧ (∀ out line k v, reKeyValue line = some (k, v) →
        k ≠ "Name" → k ≠ "X-KDE-PluginInfo-Author" → k ≠ "Comment" →
        k ≠ "PieceCount" → k ≠ "020_PieceCount" →
        processDesktopLine out line = out)
    ∧ (∀ line, line.data.head? = some '[' → reKeyValue line = none)
    ∧ (∀ lines readErr out,
        (scanPalaDesktopFile lines readErr out).2 = none ↔ readErr = none) := by
  refine ⟨processDesktopLine_none, processDesktopLine_unknown, reKeyValue_bracket, ?_⟩
  intro lines readErr out
  unfold scanPalaDesktopFile
  rcases readErr with _ | ge <;> simp

theorem C5_witness :
    reKeyValue "[Desktop Entry]" = none
    ∧ processDesktopLine {} "[Desktop Entry]" = {}
    ∧ processDesktopLine {} "X-Unknown=1" = {}
    ∧ (scanPalaDesktopFile ["[Desktop Entry]", "X-Unknown=1"] none {}).2 = none := by
  obtain ⟨h1, h2, h3, h4⟩ := C5_descriptor_leniency
  refine ⟨h3 "[Desktop Entry]" (by decide), ?_, ?_, ?_⟩
  · exact h1 {} "[Desktop Entry]" (h3 "[Desktop Entry]" (by decide))
  · exact h2 {} "X-Unknown=1" "X-Unknown" "1" (by decide)
      (by decide) (by decide) (by decide) (by decide) (by decide)
  · exact (h4 ["[Desktop Entry]", "X-Unknown=1"] none {}).mpr rfl

/-- Declared piece count is unchanged by lines with no piece-count key. -/
theorem declFold_no_piece (lines : List String) (d : Int)
    (hl : ∀ l ∈ lines, ∀ k v, reKeyValue l = some (k, v) →
        k ≠ "PieceCount" ∧ k ≠ "020_PieceCount") :
    declFold d lines = d := by
  induction lines generalizing d with
  | nil => rfl
  | cons l rest ih =>
    have hstep : declStep d l = d := by
      unfold declStep
      rcases hm : reKeyValue l with _ | ⟨k, v⟩
      · rfl
      · simp only
        obtain ⟨hk1, hk2⟩ := hl l (List.mem_cons_self l rest) k v hm
        rw [if_neg (by simp [hk1, hk2])]
    have : declFold d (l :: rest) = declFold (declStep d l) rest := rfl
    rw [this, hstep]
    exact ih d (fun x hx => hl x (List.mem_cons_of_mem l hx))

/-- C4: a descriptor line with key `PieceCount` or `020_PieceCount` sets the
declared count to the parsed integer, or on parse failure to the sentinel -1
together with a `bad PieceCount "<value>"` warning carrying the (trimmed)
value text; the parser still succeeds; and with no such key the declared
count keeps its previous (default) value. -/
theorem C4_piece_count_field :
    (∀ (out : PuzzleInfo) line k v n, reKeyValue line = some (k, v) →
        (k = "PieceCount" ∨ k = "020_PieceCount") → atoi (trimSpace v) = some n →
        processDesktopLine out line = { out with NPiecesDecl := n })
    ∧ (∀ (out : PuzzleInfo) line k v, reKeyValue line = some (k, v) →
        (k = "PieceCount" ∨ k = "020_PieceCount") → atoi (trimSpace v) = none →
        processDesktopLine out line
          = { out with NPiecesDecl := -1,
                       Warnings := out.Warnings ++ [badPieceCountStr (trimSpace v)] })
    ∧ (∀ lines out, (scanPalaDesktopFile lines none out).2 = none)
    ∧ (∀ lines readErr out,
        (∀ l ∈ lines, ∀ k v, reKeyValue l = some (k, v) →
            k ≠ "PieceCount" ∧ k ≠ "020_PieceCount") →
        ((scanPalaDesktopFile lines readErr out).1).NPiecesDecl
          = out.NPiecesDecl) := by
  refine ⟨?_, ?_, ?_, ?_⟩
  · intro out line k v n hm hk ha
    unfold processDesktopLine
    rw [hm]
    simp only
    rcases hk with hk | hk <;> subst hk <;>
      rw [if_neg (by decide), if_neg (by decide), if_neg (by decide),
        if_pos (by simp), ha]
  · intro out line k v hm hk ha
    unfold processDesktopLine
    rw [hm]
    simp only
    rcases hk with hk | hk <;> subst hk <;>
      rw [if_neg (by decide), if_neg (by decide), if_neg (by decide),
        if_pos (by simp), ha]
  · intro lines out
    rfl
  · intro lines readErr out hl
    have h1 : (scanPalaDesktopFile lines readErr out).1
        = lines.foldl processDesktopLine out := by
      unfold scanPalaDesktopFile
      rcases readErr with _ | ge <;> rfl
    rw [h1, (desktopFold_spec lines out).2.1, declFold_no_piece lines out.NPiecesDecl hl]

theorem C4_witness :
    reKeyValue "PieceCount=abc" = some ("PieceCount", "abc")
    ∧ atoi "abc" = none
    ∧ processDesktopLine {} "PieceCount=abc"
        = { NPiecesDecl := -1, Warnings := [badPieceCountStr "abc"] }
    ∧ processDesktopLine {} "PieceCount=24" = { NPiecesDecl := 24 }
    ∧ (scanPalaDesktopFile ["PieceCount=abc"] none {}).2 = none := by
  obtain ⟨hsome, hnone, hok, habsent⟩ := C4_piece_count_field
  refine ⟨by decide, by decide, ?_, ?_, hok ["PieceCount=abc"] {}⟩
  · have := hnone {} "PieceCount=abc" "PieceCount" "abc" (by decide)
      (Or.inl rfl) (by decide)
    rw [this]
    decide
  · have := hsome {} "PieceCount=24" "PieceCount" "24" 24 (by decide)
      (Or.inl rfl) (by decide)
    rw [this]

/-- C3: the observed piece-file count is one more than the running maximum
piece index (which bounds every parsed index, and is attained when any piece
entry exists); every regex-matching entry of a successful scan has a parsed
index; and with no piece entries the count is 0 and no missing or duplicate
warning exists, whatever else the archive contains. -/
theorem C3_observed_piece_count (inp : ScanInput) (r : PuzzleInfo)
    (h : ScanPuzzle inp = (some r, none)) :
    r.NPieceFiles = maxFrom (-1) inp.tarEntries + 1
    ∧ (∀ x ∈ pieceIdxs inp.tarEntries, (x : Int) ≤ maxFrom (-1) inp.tarEntries)
    ∧ (pieceIdxs inp.tarEntries ≠ [] →
        ∃ x ∈ pieceIdxs inp.tarEntries, maxFrom (-1) inp.tarEntries = (x : Int))
    ∧ (∀ e ∈ inp.tarEntries, (rePieceName e.name).isSome → (entryIndex e).isSome)
    ∧ (pieceIdxs inp.tarEntries = [] →
        r.NPieceFiles = 0
        ∧ (∀ i, missingStr i ∉ r.Warnings)
        ∧ (∀ c i, dupStr c i ∉ r.Warnings)) := by
  obtain ⟨h1, h2, h3, ⟨w, hw, hform⟩, hparse⟩ := ScanPuzzle_ok_spec inp r h
  refine ⟨h1, fun x hx => maxFrom_mem_le _ _ x hx, ?_, hparse, ?_⟩
  · intro hne
    rcases maxFrom_cases inp.tarEntries (-1) with hc | hc
    · exfalso
      obtain ⟨x, hx⟩ := List.exists_mem_of_ne_nil _ hne
      have hle := maxFrom_mem_le inp.tarEntries (-1) x hx
      rw [hc] at hle
      omega
    · exact hc
  · intro hempty
    have hmx : maxFrom (-1) inp.tarEntries = -1 := by
      unfold maxFrom
      rw [hempty]
      rfl
    have hwW : r.Warnings = w := by
      rw [hw, hmx]
      simp
    refine ⟨by rw [h1, hmx]; decide, ?_, ?_⟩
    · intro i hmem
      rw [hwW] at hmem
      obtain ⟨v, hv⟩ := hform _ hmem
      exact badStr_ne_missingStr v i hv.symm
    · intro c i hmem
      rw [hwW] at hmem
      obtain ⟨v, hv⟩ := hform _ hmem
      exact badStr_ne_dupStr v c i hv.symm

/-- Archive with an image and a descriptor but no piece entries. -/
def exC3 : ScanInput :=
  { tarEntries := [{ name := "image.jpg", size := 7 },
      { name := "pala.desktop", lines := ["PieceCount=abc"] }] }

/-- Record produced by scanning `exC3`. -/
def recC3 : PuzzleInfo :=
  { Filename := "p", Warnings := [badPieceCountStr "abc"], NPiecesDecl := -1,
    ImageFileSize := 7 }

theorem C3_witness :
    pieceIdxs exC3.tarEntries = []
    ∧ recC3.NPieceFiles = 0
    ∧ missingStr 0 ∉ recC3.Warnings := by
  have h : ScanPuzzle exC3 = (some recC3, none) := by decide
  have hempty : pieceIdxs exC3.tarEntries = [] := by decide
  obtain ⟨hn, hmiss, -⟩ := (C3_observed_piece_count exC3 recC3 h).2.2.2.2 hempty
  exact ⟨hempty, hn, hmiss 0⟩

/-- C2: the warnings of a successful scan are the pre-pass (descriptor)
warnings followed by the reconciliation warnings, which are concatenated in
ascending index order over positions `0 .. maxIndex-1` (the maximum
index's own slot is not visited); in particular every position below the
maximum with zero occurrences contributes its `missing "<i>.png"` warning. -/
theorem C2_missing_warnings_ascending (inp : ScanInput) (r : PuzzleInfo)
    (h : ScanPuzzle inp = (some r, none)) (_hne : pieceIdxs inp.tarEntries ≠ []) :
    (∃ w, (∀ x ∈ w, ∃ v, x = badPieceCountStr v)
      ∧ r.Warnings = w ++ (List.range (maxFrom (-1) inp.tarEntries).toNat).flatMap
          (fun i => warnAt (occ inp.tarEntries i % 256) i))
    ∧ (∀ i : Nat, (i : Int) < maxFrom (-1) inp.tarEntries →
        occ inp.tarEntries i = 0 → missingStr i ∈ r.Warnings) := by
  obtain ⟨-, -, -, ⟨w, hw, hform⟩, -⟩ := ScanPuzzle_ok_spec inp r h
  refine ⟨⟨w, hform, hw⟩, ?_⟩
  intro i hi hocc
  refine warn_mem_of_scan inp r h i hi _ ?_
  rw [hocc]
  simp [warnAt]

/-- Archive with piece entries 0 and 2 only. -/
def exC2 : ScanInput := { tarEntries := [{ name := "0.png" }, { name := "2.png" }] }

/-- Record produced by scanning `exC2`. -/
def recC2 : PuzzleInfo :=
  { Filename := "p", Warnings := [missingStr 1], NPieceFiles := 3 }

theorem C2_witness :
    pieceIdxs exC2.tarEntries ≠ []
    ∧ recC2.Warnings = [missingStr 1]
    ∧ missingStr 1 ∈ recC2.Warnings := by
  have h : ScanPuzzle exC2 = (some recC2, none) := by decide
  have hne : pieceIdxs exC2.tarEntries ≠ [] := by decide
  have hs := C2_missing_warnings_ascending exC2 recC2 h hne
  exact ⟨hne, rfl, hs.2 1 (by decide) (by decide)⟩

/-- C7: the recorded image byte size of a successful scan is the size of the
last `image.jpg` entry in archive order, while a duplicated piece index
below the maximum is reported with the full occurrence count (every
occurrence tallied), provided the count fits in the byte tally. -/
theorem C7_last_image_wins (inp : ScanInput) (r : PuzzleInfo)
    (h : ScanPuzzle inp = (some r, none))
    (_himg : 1 < (inp.tarEntries.filter (fun e => e.name == "image.jpg")).length) :
    r.ImageFileSize
      = (((inp.tarEntries.filter (fun e => e.name == "image.jpg")).getLast?).map
          TarEntry.size).getD 0
    ∧ (∀ i, 1 < occ inp.tarEntries i → occ inp.tarEntries i < 256 →
        (i : Int) < maxFrom (-1) inp.tarEntries →
        dupStr (occ inp.tarEntries i) i ∈ r.Warnings) := by
  obtain ⟨-, himg2, -, -, -⟩ := ScanPuzzle_ok_spec inp r h
  refine ⟨by rw [himg2, lastImageSize_eq_getLast], ?_⟩
  intro i h1 h2 hi
  refine warn_mem_of_scan inp r h i hi _ ?_
  rw [Nat.mod_eq_of_lt h2]
  unfold warnAt
  rw [if_neg (by omega), if_pos h1]
  exact List.mem_singleton_self _

/-- Archive with two image entries and a duplicated piece index 0. -/
def exC7 : ScanInput :=
  { tarEntries := [{ name := "image.jpg", size := 5 },
      { name := "image.jpg", size := 9 }, { name := "0.png" },
      { name := "0.png" }, { name := "1.png" }] }

/-- Record produced by scanning `exC7`. -/
def recC7 : PuzzleInfo :=
  { Filename := "p", Warnings := [dupStr 2 0], NPieceFiles := 2,
    ImageFileSize := 9 }

theorem C7_witness :
    1 < (exC7.tarEntries.filter (fun e => e.name == "image.jpg")).length
    ∧ recC7.ImageFileSize = 9
    ∧ dupStr 2 0 ∈ recC7.Warnings := by
  have h : ScanPuzzle exC7 = (some recC7, none) := by decide
  have hfil : 1 < (exC7.tarEntries.filter
      (fun e => e.name == "image.jpg")).length := by decide
  have hs := C7_last_image_wins exC7 recC7 h hfil
  exact ⟨hfil, rfl, hs.2 0 (by decide) (by decide) (by decide)⟩

/-- Archive whose entries are exactly two members named `3.png`. -/
def exC1 : ScanInput := { tarEntries := [{ name := "3.png" }, { name := "3.png" }] }

/-- Record produced by scanning `exC1`. -/
def recC1 : PuzzleInfo :=
  { Filename := "p", Warnings := [missingStr 0, missingStr 1, missingStr 2],
    NPieceFiles := 4 }

/-- C1 counterexample: scanning an archive holding exactly two members named
`3.png` (and nothing else) produces only the three `missing` warnings for
indices 0..2; the claimed warning `2 members named "3.png"` is absent,
because the reconciliation loop stops strictly below the maximum index. -/
theorem C1_counterexample :
    ScanPuzzle exC1 = (some recC1, none)
    ∧ recC1.Warnings = [missingStr 0, missingStr 1, missingStr 2]
    ∧ dupStr 2 3 ∉ recC1.Warnings := by
  refine ⟨by decide, rfl, by decide⟩

/-- C1 amended: an index with more than one occurrence is reported as
duplicated only when it lies strictly below the highest index seen; the
highest index's own slot is never checked, so an archive holding exactly two
members named `3.png` gets no warning about `3.png` at all (neither
duplicate nor missing), only missing warnings for 0..2. -/
theorem C1_amended_duplicates_below_max (inp : ScanInput) (r : PuzzleInfo)
    (h : ScanPuzzle inp = (some r, none)) :
    (∀ i : Nat, (i : Int) < maxFrom (-1) inp.tarEntries →
        1 < occ inp.tarEntries i → occ inp.tarEntries i < 256 →
        dupStr (occ inp.tarEntries i) i ∈ r.Warnings)
    ∧ (ScanPuzzle exC1).1.map PuzzleInfo.Warnings
        = some [missingStr 0, missingStr 1, missingStr 2] := by
  refine ⟨?_, by decide⟩
  intro i hi h1 h2
  refine warn_mem_of_scan inp r h i hi _ ?_
  rw [Nat.mod_eq_of_lt h2]
  unfold warnAt
  rw [if_neg (by omega), if_pos h1]
  exact List.mem_singleton_self _

/-- Archive with a duplicated index 1 strictly below the maximum index 2. -/
def exC1b : ScanInput :=
  { tarEntries := [{ name := "1.png" }, { name := "1.png" }, { name := "2.png" }] }

/-- Record produced by scanning `exC1b`. -/
def recC1b : PuzzleInfo :=
  { Filename := "p", Warnings := [missingStr 0, dupStr 2 1], NPieceFiles := 3 }

theorem C1_witness :
    ScanPuzzle exC1b = (some recC1b, none) ∧ dupStr 2 1 ∈ recC1b.Warnings := by
  have h : ScanPuzzle exC1b = (some recC1b, none) := by decide
  exact ⟨h, (C1_amended_duplicates_below_max exC1b recC1b h).1 1
    (by decide) (by decide) (by decide)⟩

/-- Precondition under which an entry can never abort the scan: a matching
piece name has parseable digits, and a descriptor entry has a healthy
content stream. -/
def entryOk (e : TarEntry) : Bool :=
  match rePieceName e.name with
  | some digits => (atoiDigits digits).isSome
  | none => if e.name = "pala.desktop" then e.readErr.isNone else true

theorem stepEntry_ok_of (path : String) (st : LoopState) (e : TarEntry)
    (h : entryOk e = true) : ∃ st2, stepEntry path st e = .ok st2 := by
  unfold entryOk at h
  unfold stepEntry
  rcases hm : rePieceName e.name with _ | digits <;> rw [hm] at h <;>
    try simp only at h
  · by_cases himg : e.name = "image.jpg"
    · rw [if_pos himg]
      exact ⟨_, rfl⟩
    · rw [if_neg himg]
      by_cases hdesk : e.name = "pala.desktop"
      · rw [if_pos hdesk]
        rw [if_pos hdesk] at h
        rcases hre : e.readErr with _ | ge
        · try rw [hre]
          exact ⟨_, rfl⟩
        · rw [hre] at h
          exact absurd h Bool.false_ne_true
      · rw [if_neg hdesk]
        exact ⟨_, rfl⟩
  · simp only
    rcases ha : atoiDigits digits with _ | i
    · rw [ha] at h
      exact absurd h Bool.false_ne_true
    · try rw [ha]
      exact ⟨_, rfl⟩

theorem scanEntries_total (path : String) (es : List TarEntry) (st : LoopState)
    (h : ∀ e ∈ es, entryOk e = true) :
    ∃ st', scanEntries path st es = .ok st' := by
  induction es generalizing st with
  | nil => exact ⟨st, rfl⟩
  | cons e rest ih =>
    obtain ⟨st2, hs⟩ := stepEntry_ok_of path st e (h e (List.mem_cons_self e rest))
    obtain ⟨st', hr⟩ := ih st2 (fun x hx => h x (List.mem_cons_of_mem e hx))
    refine ⟨st', ?_⟩
    unfold scanEntries
    rw [hs]
    exact hr

theorem ScanPuzzle_ok_of (inp : ScanInput) (ho : inp.openErr = none)
    (hst : inp.statErr = none) (hg : inp.gzipErr = none)
    (ht : inp.tarReadErr = none)
    (he : ∀ e ∈ inp.tarEntries, entryOk e = true) :
    ∃ r, ScanPuzzle inp = (some r, none) := by
  obtain ⟨st', hsc⟩ := scanEntries_total inp.path inp.tarEntries
    ⟨{ Dir := (filepathSplit inp.path).1, Filename := (filepathSplit inp.path).2,
       PuzzleFileSize := inp.fileSize }, -1, List.replicate 512 0⟩ he
  refine ⟨{ st'.ret with
      Warnings := st'.ret.Warnings ++ tallyWarnings st'.piecesFound st'.maxPieceNum,
      NPieceFiles := st'.maxPieceNum + 1 }, ?_⟩
  unfold ScanPuzzle
  rw [ho, hst, hg, hsc, ht]

theorem stepEntry_warnings_of_no_desktop (path : String) (st st2 : LoopState)
    (e : TarEntry) (h : stepEntry path st e = .ok st2)
    (hnd : e.name ≠ "pala.desktop") : st2.ret.Warnings = st.ret.Warnings := by
  unfold stepEntry at h
  rcases hm : rePieceName e.name with _ | digits <;> rw [hm] at h <;>
    try simp only at h
  · by_cases himg : e.name = "image.jpg"
    · rw [if_pos himg] at h
      cases h
      rfl
    · rw [if_neg himg, if_neg hnd] at h
      cases h
      rfl
  · rcases ha : atoiDigits digits with _ | i <;> rw [ha] at h <;>
      try simp only at h
    · cases h
    · cases h
      rfl

theorem scanEntries_warnings_of_no_desktop (path : String) (es : List TarEntry)
    (st st' : LoopState) (h : scanEntries path st es = .ok st')
    (hnd : ∀ e ∈ es, e.name ≠ "pala.desktop") :
    st'.ret.Warnings = st.ret.Warnings := by
  induction es generalizing st with
  | nil => cases h; rfl
  | cons e rest ih =>
    obtain ⟨st2, hstep, hrest⟩ := scanEntries_cons path st st' e rest h
    rw [ih st2 hrest (fun x hx => hnd x (List.mem_cons_of_mem e hx)),
      stepEntry_warnings_of_no_desktop path st st2 e hstep
        (hnd e (List.mem_cons_self e rest))]

/-- For an archive without a descriptor entry, the warnings of a successful
scan are exactly the reconciliation warnings. -/
theorem ScanPuzzle_warnings_of_no_desktop (inp : ScanInput) (r : PuzzleInfo)
    (h : ScanPuzzle inp = (some r, none))
    (hnd : ∀ e ∈ inp.tarEntries, e.name ≠ "pala.desktop") :
    r.Warnings = (List.range (maxFrom (-1) inp.tarEntries).toNat).flatMap
      (fun i => warnAt (occ inp.tarEntries i % 256) i) := by
  obtain ⟨st, hscan, hr⟩ := ScanPuzzle_ok_destruct inp r h
  obtain ⟨-, hcount, hmax, -, -, -, -, -⟩ :=
    scanEntries_ok_spec inp.path inp.tarEntries _ st hscan (PreSt_init inp)
  have hwu : st.ret.Warnings = [] :=
    scanEntries_warnings_of_no_desktop inp.path inp.tarEntries _ st hscan hnd
  subst hr
  simp only
  rw [hwu, List.nil_append,
    tallyWarnings_congr st.piecesFound st.maxPieceNum _
      (fun j => by rw [hcount j, replicate_getD, Nat.zero_add]), hmax]

/-! ### Replicated-entry archives for the byte-tally claim -/

theorem filterMap_replicate_some {α β : Type} (f : α → Option β) (a : α) (b : β)
    (n : Nat) (h : f a = some b) :
    List.filterMap f (List.replicate n a) = List.replicate n b := by
  induction n with
  | zero => rfl
  | succ n ih =>
    rw [List.replicate_succ, List.replicate_succ, List.filterMap_cons, h, ih]

theorem count_replicate_self_nat (n a : Nat) :
    List.count a (List.replicate n a) = n := by
  induction n with
  | zero => rfl
  | succ n ih =>
    rw [List.replicate_succ, List.count_cons, ih]
    simp

/-- Archive with `n` members named `0.png` followed by one `1.png`. -/
def repInput (n : Nat) : ScanInput :=
  { tarEntries := List.replicate n { name := "0.png" } ++ [{ name := "1.png" }] }

theorem pieceIdxs_repInput (n : Nat) :
    pieceIdxs (repInput n).tarEntries = List.replicate n 0 ++ [1] := by
  show List.filterMap entryIndex
      (List.replicate n { name := "0.png" } ++ [{ name := "1.png" }]) = _
  rw [List.filterMap_append,
    filterMap_replicate_some entryIndex _ 0 n (by decide)]
  rfl

theorem occ_repInput_zero (n : Nat) : occ (repInput n).tarEntries 0 = n := by
  unfold occ
  rw [pieceIdxs_repInput, List.count_append, count_replicate_self_nat]
  rfl

theorem maxFrom_repInput (n : Nat) : maxFrom (-1) (repInput n).tarEntries = 1 := by
  have h1 : (1 : Nat) ∈ pieceIdxs (repInput n).tarEntries := by
    rw [pieceIdxs_repInput]
    exact List.mem_append_right _ (List.mem_singleton_self 1)
  have hge := maxFrom_mem_le (repInput n).tarEntries (-1) 1 h1
  rcases maxFrom_cases (repInput n).tarEntries (-1) with hc | ⟨x, hx, hc⟩
  · rw [hc] at hge
    omega
  · rw [pieceIdxs_repInput] at hx
    rcases List.mem_append.mp hx with hx | hx
    · have hx0 := List.eq_of_mem_replicate hx
      rw [hx0] at hc
      rw [hc] at hge
      omega
    · have hx1 := List.mem_singleton.mp hx
      rw [hx1] at hc
      exact hc

theorem entryOk_repInput (n : Nat) : ∀ e ∈ (repInput n).tarEntries, entryOk e = true := by
  intro e he
  rcases List.mem_append.mp he with h | h
  · rw [List.eq_of_mem_replicate h]
    decide
  · rw [List.mem_singleton.mp h]
    decide

theorem no_desktop_repInput (n : Nat) :
    ∀ e ∈ (repInput n).tarEntries, e.name ≠ "pala.desktop" := by
  intro e he
  rcases List.mem_append.mp he with h | h
  · rw [List.eq_of_mem_replicate h]
    decide
  · rw [List.mem_singleton.mp h]
    decide

/-- The warnings of scanning `repInput n` are exactly those of tally slot 0
holding `n % 256`. -/
theorem warnings_repInput (n : Nat) :
    ∃ r, ScanPuzzle (repInput n) = (some r, none)
      ∧ r.Warnings = warnAt (n % 256) 0 := by
  obtain ⟨r, hr⟩ := ScanPuzzle_ok_of (repInput n) rfl rfl rfl rfl (entryOk_repInput n)
  refine ⟨r, hr, ?_⟩
  rw [ScanPuzzle_warnings_of_no_desktop (repInput n) r hr (no_desktop_repInput n),
    maxFrom_repInput]
  rw [show ((1 : Int).toNat) = 1 from rfl, show List.range 1 = [0] from rfl,
    List.flatMap_cons, List.flatMap_nil, List.append_nil, occ_repInput_zero]

/-- C9 counterexample: in an archive with 257 members named `0.png` below the
maximum index 1, the byte tally at slot 0 holds 1 and the scan emits no
warning at all about index 0 — in particular not the claimed
`1 members named "0.png"` warning. -/
theorem C9_counterexample :
    (ScanPuzzle (repInput 257)).1.map PuzzleInfo.Warnings = some []
    ∧ dupStr 1 0 ∉ ((ScanPuzzle (repInput 257)).1.getD {}).Warnings := by
  obtain ⟨r, hr, hw⟩ := warnings_repInput 257
  rw [hr]
  constructor
  · show some r.Warnings = some []
    rw [hw]
    decide
  · show dupStr 1 0 ∉ r.Warnings
    rw [hw]
    decide

/-- C9 amended: the tally is kept per index in one byte, so occurrence
counts are tracked modulo 256: any index below the maximum whose count is 0
modulo 256 — in particular one occurring exactly 256 times — is reported as
`missing "<i>.png"`, while 257 occurrences leave a tally of 1 and produce no
warning at all (neither missing nor `1 members named`). -/
theorem C9_amended_byte_tally (inp : ScanInput) (r : PuzzleInfo)
    (h : ScanPuzzle inp = (some r, none)) :
    (∀ i : Nat, (i : Int) < maxFrom (-1) inp.tarEntries →
        occ inp.tarEntries i % 256 = 0 → missingStr i ∈ r.Warnings)
    ∧ (ScanPuzzle (repInput 256)).1.map PuzzleInfo.Warnings = some [missingStr 0]
    ∧ (ScanPuzzle (repInput 257)).1.map PuzzleInfo.Warnings = some [] := by
  refine ⟨?_, ?_, ?_⟩
  · intro i hi hocc
    refine warn_mem_of_scan inp r h i hi _ ?_
    rw [hocc]
    simp [warnAt]
  · obtain ⟨r2, hr2, hw2⟩ := warnings_repInput 256
    rw [hr2]
    show some r2.Warnings = some [missingStr 0]
    rw [hw2]
    decide
  · obtain ⟨r2, hr2, hw2⟩ := warnings_repInput 257
    rw [hr2]
    show some r2.Warnings = some []
    rw [hw2]
    decide

theorem C9_witness :
    missingStr 0 ∈ ((ScanPuzzle (repInput 256)).1.getD {}).Warnings := by
  obtain ⟨r, hr, hw⟩ := warnings_repInput 256
  rw [hr]
  show missingStr 0 ∈ r.Warnings
  exact (C9_amended_byte_tally (repInput 256) r hr).1 0
    (by rw [maxFrom_repInput]; decide) (by rw [occ_repInput_zero])

/-- Input whose open step fails with an `os.PathError`. -/
def exC8 : ScanInput :=
  { path := "/a/b",
    openErr := some (.pathError "open" "/a/b" (.simple "no such file or directory")) }

/-- The error value `ScanPuzzle` returns for `exC8`. -/
def errC8 : Error :=
  ⟨"cannot open", "/a/b",
    some (.pathError "open" "/a/b" (.simple "no such file or directory"))⟩

theorem C8_witness :
    errC8.FilePath = exC8.path
    ∧ errC8.Error = "cannot " ++ errC8.Action ++ " \"" ++ exC8.path ++ "\""
        ++ causeStr errC8.BaseError
    ∧ causeStr errC8.BaseError = ": no such file or directory" := by
  have h : ScanPuzzle exC8 = (none, some errC8) := rfl
  obtain ⟨h1, h2, h3, h4⟩ := C8_error_rendering exC8 errC8 h
  refine ⟨h1, h2, ?_⟩
  rw [h4 "open" "/a/b" (.simple "no such file or directory") rfl]
  rfl

end palapuzzle
